import Mathlib

/-!
Verification of the JWS (JSON Web Signature) package: compact/JSON
serialization, the streaming compact splitter, the key-type/algorithm
registry, and the verification engine (compact, JSON and key-set driven),
embedded shallowly from the Go source.

Bytes are modelled as `Nat` (one entry per byte); `46` is the byte `'.'`.
External collaborators (the JSON engine, the cryptographic Verifier
factory) are passed as explicit function parameters, mirroring the
capabilities the spec declares out of scope.
-/

namespace Jws

/-- Modelled from the spec: base64url alphabet value of one byte
(the internal base64 package is not included in src). `A-Z a-z 0-9 - _`. -/
def b64Val (c : Nat) : Option Nat :=
  if 65 ≤ c ∧ c ≤ 90 then some (c - 65)
  else if 97 ≤ c ∧ c ≤ 122 then some (c - 71)
  else if 48 ≤ c ∧ c ≤ 57 then some (c + 4)
  else if c = 45 then some 62
  else if c = 95 then some 63
  else none

/-- Modelled from the spec: reassemble 6-bit groups into bytes; a trailing
group of one 6-bit value is malformed, groups of two/three yield one/two
bytes. -/
def b64DecodeVals : List Nat → Option (List Nat)
  | [] => some []
  | [_] => none
  | [a, b] => some [a * 4 + b / 16]
  | [a, b, c] => some [a * 4 + b / 16, (b % 16) * 16 + c / 4]
  | a :: b :: c :: d :: rest =>
    match b64DecodeVals rest with
    | none => none
    | some t => some ((a * 4 + b / 16) :: ((b % 16) * 16 + c / 4) :: ((c % 4) * 64 + d) :: t)

/-- Map every byte of a base64url buffer to its alphabet value; `none` on
the first byte outside the alphabet. -/
def b64Vals : List Nat → Option (List Nat)
  | [] => some []
  | c :: rest =>
    match b64Val c with
    | none => none
    | some v =>
      match b64Vals rest with
      | none => none
      | some vs => some (v :: vs)

/-- Modelled from the spec: unpadded base64url decoding
(the internal base64 package is not included in src). -/
def b64Decode (l : List Nat) : Option (List Nat) :=
  match b64Vals l with
  | none => none
  | some vals => b64DecodeVals vals

/-- Modelled from the spec: base64url alphabet byte of a 6-bit value. -/
def b64Chr (v : Nat) : Nat :=
  if v < 26 then v + 65
  else if v < 52 then v + 71
  else if v < 62 then v - 4
  else if v = 62 then 45
  else 95

/-- Modelled from the spec: unpadded base64url encoding
(the internal base64 package is not included in src). -/
def b64Encode : List Nat → List Nat
  | [] => []
  | [a] => [b64Chr (a / 4), b64Chr (a % 4 * 16)]
  | [a, b] => [b64Chr (a / 4), b64Chr (a % 4 * 16 + b / 16), b64Chr (b % 16 * 4)]
  | a :: b :: c :: rest =>
    b64Chr (a / 4) :: b64Chr (a % 4 * 16 + b / 16) :: b64Chr (b % 16 * 4 + c / 64)
      :: b64Chr (c % 64) :: b64Encode rest

/-- Number of `'.'` bytes in a buffer. -/
def countDot : List Nat → Nat
  | [] => 0
  | b :: rest => (if b = 46 then 1 else 0) + countDot rest

/-- Embedding of `bytes.Split(src, []byte("."))`: the dot-separated
segments of `src`, in order; always at least one segment. -/
def splitDots : List Nat → List (List Nat)
  | [] => [[]]
  | b :: rest =>
    if b = 46 then [] :: splitDots rest
    else
      match splitDots rest with
      | [] => [[b]]
      | p :: ps => (b :: p) :: ps

/-- Embedding of `SplitCompact` (src lines 499-505): split on `'.'`; error when fewer
than three segments, otherwise return the first three segments. -/
def SplitCompact (src : List Nat) : Option (List Nat × List Nat × List Nat) :=
  match splitDots src with
  | p0 :: p1 :: p2 :: _ => some (p0, p1, p2)
  | _ => none

/-- Reassemble dot-separated segments, the inverse of `splitDots`. -/
def joinDots : List (List Nat) → List Nat
  | [] => []
  | [x] => x
  | x :: xs => x ++ 46 :: joinDots xs

/-- The segment-collection accumulator of `SplitCompactReader`
(src lines 524-528): captured segments, delimiter count, 3-state machine. -/
structure SegAcc where
  prot : List Nat
  payl : List Nat
  sig : List Nat
  periods : Nat
  state : Nat
deriving DecidableEq

/-- The `switch state` block of `SplitCompactReader` (src lines 560-569):
store the current segment and advance the state machine. -/
def assignSeg (a : SegAcc) (seg : List Nat) : SegAcc :=
  match a.state with
  | 0 => { a with prot := seg, state := 1 }
  | 1 => { a with payl := seg, state := 2 }
  | _ => { a with sig := seg }

/-- One found delimiter in `SplitCompactReader`: `periods++` followed by
the segment store. -/
def stepSeg (a : SegAcc) (seg : List Nat) : SegAcc :=
  assignSeg { a with periods := a.periods + 1 } seg

/-- Full state of the streaming splitter: accumulator plus the unconsumed
tail `sofar` carried across chunk boundaries. -/
structure SplitState where
  acc : SegAcc
  sofar : List Nat
deriving DecidableEq

/-- Embedding of `bytes.IndexByte(sofar, '.')` as a decomposition: the bytes before the
first `'.'` and the bytes after it, or `none` when there is no dot. -/
def findDot : List Nat → Option (List Nat × List Nat)
  | [] => none
  | b :: rest =>
    if b = 46 then some ([], rest)
    else
      match findDot rest with
      | none => none
      | some (pre, post) => some (b :: pre, post)

/-- The inner delimiter loop of `SplitCompactReader` (src lines 544-574):
consume every `'.'` in `sofar`; at end-of-stream additionally flush the
remaining bytes into the current segment (without counting a delimiter).
`fuel` bounds the recursion; any `fuel > countDot sofar` is exact. -/
def innerLoop (fuel : Nat) (s : SplitState) (atEOF : Bool) : SplitState :=
  match fuel with
  | 0 => s
  | f + 1 =>
    match findDot s.sofar with
    | some (pre, post) => innerLoop f ⟨stepSeg s.acc pre, post⟩ atEOF
    | none => if atEOF then ⟨assignSeg s.acc s.sofar, s.sofar⟩ else s

/-- The outer read loop of `SplitCompactReader` (src lines 533-579): each
read appends a chunk to `sofar` and runs the delimiter loop; the final
read returns end-of-stream and flushes. -/
def outerLoop : SplitState → List (List Nat) → SplitState
  | s, [] => innerLoop (s.sofar.length + 1) s true
  | s, c :: cs =>
    let s' : SplitState := ⟨s.acc, s.sofar ++ c⟩
    outerLoop (innerLoop (s'.sofar.length + 1) s' false) cs

/-- Initial streaming-splitter state: no segments, no delimiters, state 0,
empty carry-over buffer. -/
def initState : SplitState := ⟨⟨[], [], [], 0, 0⟩, []⟩

/-- Byte-at-a-time view of the streaming splitter, used to analyse it: a
dot stores the carried segment, any other byte joins the carry-over
buffer. Proved below to compute exactly what the chunked loops compute. -/
def stepByte (s : SplitState) (b : Nat) : SplitState :=
  if b = 46 then ⟨stepSeg s.acc s.sofar, []⟩ else ⟨s.acc, s.sofar ++ [b]⟩

/-- Prepend carried-over bytes onto the first segment of a segment list. -/
def withHead (t : List Nat) : List (List Nat) → List (List Nat)
  | [] => [t]
  | p :: ps => (t ++ p) :: ps

/-- The end-of-stream flush: store the remaining carry-over bytes into
the current segment without counting a delimiter. -/
def flushState (s : SplitState) : SplitState := ⟨assignSeg s.acc s.sofar, s.sofar⟩

/-- Embedding of `SplitCompactReader` (src lines 519-585) on a generic reader that
delivers the given chunks and then end-of-stream: run the state machine
and succeed only when exactly two delimiters were seen. (For readers
backed by an already fully buffered source the code delegates to
`SplitCompact` instead.) -/
def SplitCompactReader (chunks : List (List Nat)) : Option (List Nat × List Nat × List Nat) :=
  let s := outerLoop initState chunks
  if s.acc.periods = 2 then some (s.acc.prot, s.acc.payl, s.acc.sig) else none

/-- A dynamically typed JOSE header value, as delivered by the JSON
engine: a boolean, or some non-boolean JSON value (string, number).
Only the cases the code distinguishes (`b64raw.(bool)`) matter. -/
inductive HVal where
  | boolV (b : Bool)
  | strV (s : String)
  | numV (n : Int)
deriving DecidableEq

/-- Modelled from the spec: the JOSE header mapping (the generated header
code is not included in src), restricted to the fields the verification
paths consult: `kid` via `KeyID()` (empty string when absent, as in the
Go interface) and the dynamically typed `b64` field via `Get("b64")`
(`none` when absent). -/
structure Headers where
  kid : String
  b64 : Option HVal
deriving DecidableEq

/-- Modelled from the spec: the data of a structured key object
(`jwk.Key`, not included in src): `KeyType()`, `KeyID()`, `Algorithm()`,
`KeyUsage()`, each the empty string when absent, as in the Go interface. -/
structure JwkKeyData where
  keyType : String
  keyID : String
  algorithm : String
  keyUsage : String
deriving DecidableEq

/-- The concrete key shapes the package accepts: a structured key object,
the raw RSA/ECDSA/EdDSA/X25519 key types (pointer and value shapes
collapse to one constructor each), an octet sequence, or anything else. -/
inductive JwsKey where
  | jwk (k : JwkKeyData)
  | rsaPublicKey
  | rsaPrivateKey
  | ecdsaPublicKey
  | ecdsaPrivateKey
  | ed25519PublicKey
  | ed25519PrivateKey
  | x25519PublicKey
  | x25519PrivateKey
  | octets (b : List Nat)
  | otherKey
deriving DecidableEq

/-- The type assertion `jwkKey, ok := key.(jwk.Key)` followed by
`jwkKey.KeyID()`: the key ID of a structured key, `none` otherwise. -/
def keyJwkKid : JwsKey → Option String
  | .jwk k => some k.keyID
  | _ => none

/-- One signature of a message: optional unprotected headers, optional
protected headers, raw signature bytes. -/
structure Signature where
  headers : Option Headers
  protectedHdr : Option Headers
  signature : List Nat
deriving DecidableEq

/-- A parsed JWS message: payload bytes, the message-level `b64` flag the
JSON decoder committed to, and the ordered signatures. -/
structure Message where
  payload : List Nat
  b64 : Bool
  signatures : List Signature
deriving DecidableEq

/-- The error kinds of the package, one per distinct error return site of
the modelled functions. -/
inductive JwsErr where
  | emptyInput
  | malformedSegments
  | unsupportedAlgorithm
  | signatureDecodeFailed
  | headerDecodeFailed
  | headerParseFailed
  | keyIDMismatch
  | verificationFailed
  | payloadDecodeFailed
  | ambiguousPayload
  | jsonUnmarshalFailed
  | headerMarshalFailed
  | noValidSignature
  | noKeyVerified
deriving DecidableEq

/-- Result of a verification entry point: the authenticated payload bytes
or a typed error (Go's `([]byte, error)`). -/
inductive JwsResult where
  | ok (payload : List Nat)
  | error (e : JwsErr)
deriving DecidableEq

/-- Result of a parsing entry point: a `Message` or a typed error. -/
inductive ParseResult where
  | ok (m : Message)
  | error (e : JwsErr)
deriving DecidableEq

/-- An external cryptographic verifier (`Verifier.Verify`): signing input,
signature bytes, key; `true` stands for a nil error. -/
def VerifierFn : Type := List Nat → List Nat → JwsKey → Bool

/-- Embedding of `getB64Value` (src lines 314-325): `true` when the `b64` field is
absent, the boolean value when it is a boolean, `false` when it is
present with a non-boolean value (failed type assertion). -/
def getB64Value (hdr : Headers) : Bool :=
  match hdr.b64 with
  | none => true
  | some (.boolV b) => b
  | some _ => false

/-- The `kid` check of `verifyCompact` (src lines 363-369): the header
carries a non-empty `kid`, the key is a structured key object, and the
two key IDs differ. -/
def kidMismatch (hdr : Headers) (key : JwsKey) : Bool :=
  if hdr.kid = "" then false
  else
    match keyJwkKid key with
    | some kk => kk != hdr.kid
    | none => false

/-- The detached-payload substitution of `verifyCompact` (src lines
343-345): the detached payload replaces the payload segment only when
the segment is empty and a detached payload was supplied. -/
def payloadOf (paySeg : List Nat) (detached : Option (List Nat)) : List Nat :=
  match paySeg, detached with
  | [], some d => d
  | _, _ => paySeg

/-- Embedding of `verifyCompact` (src lines 327-400). `nv` is the `NewVerifier`
factory and `jsonHdr` the JSON engine's header decoder, both external
capabilities. The message-sink out-parameter only copies the result and
is omitted. -/
def verifyCompact (nv : String → Option VerifierFn) (jsonHdr : List Nat → Option Headers)
    (alg : String) (key : JwsKey) (detached : Option (List Nat)) (signed : List Nat) :
    JwsResult :=
  match SplitCompact signed with
  | none => .error .malformedSegments
  | some (protSeg, paySeg, sigSeg) =>
    match nv alg with
    | none => .error .unsupportedAlgorithm
    | some verifier =>
      let payload : List Nat := payloadOf paySeg detached
      let verifyBuf : List Nat := protSeg ++ 46 :: payload
      match b64Decode sigSeg with
      | none => .error .signatureDecodeFailed
      | some decodedSignature =>
        match b64Decode protSeg with
        | none => .error .headerDecodeFailed
        | some decodedProtected =>
          match jsonHdr decodedProtected with
          | none => .error .headerParseFailed
          | some hdr =>
            if kidMismatch hdr key then .error .keyIDMismatch
            else if verifier verifyBuf decodedSignature key then
              if getB64Value hdr then
                match b64Decode payload with
                | none => .error .payloadDecodeFailed
                | some v => .ok v
              else .ok payload
            else .error .verificationFailed

/-- The signature loop of `verifyJSON` (src lines 282-307): skip a
signature whose unprotected header carries a `kid` differing from a
structured key's key ID; otherwise marshal its protected header (a
marshal failure aborts the whole call), build the signing input and try
the verifier; first success returns the message payload. -/
def tryVerifySignatures (verifier : VerifierFn) (mh : Option Headers → Option (List Nat))
    (key : JwsKey) (payloadRepr : List Nat) (mPayload : List Nat) :
    List Signature → JwsResult
  | [] => .error .noValidSignature
  | sig :: rest =>
    let skip : Bool :=
      match sig.headers with
      | some hdr =>
        if hdr.kid = "" then false
        else
          match keyJwkKid key with
          | some kk => kk != hdr.kid
          | none => false
      | none => false
    if skip then tryVerifySignatures verifier mh key payloadRepr mPayload rest
    else
      match mh sig.protectedHdr with
      | none => .error .headerMarshalFailed
      | some protJson =>
        let buf : List Nat := b64Encode protJson ++ 46 :: payloadRepr
        if verifier buf sig.signature key then .ok mPayload
        else tryVerifySignatures verifier mh key payloadRepr mPayload rest

/-- Embedding of `verifyJSON` (src lines 252-309). `jsonMsg` is the JSON engine's
message decoder and `mh` its header marshaller, external capabilities.
The payload's signing representation is computed once for the whole
message from the message-level `b64`. -/
def verifyJSON (nv : String → Option VerifierFn) (jsonMsg : List Nat → Option Message)
    (mh : Option Headers → Option (List Nat)) (alg : String) (key : JwsKey)
    (detached : Option (List Nat)) (signed : List Nat) : JwsResult :=
  match nv alg with
  | none => .error .unsupportedAlgorithm
  | some verifier =>
    match jsonMsg signed with
    | none => .error .jsonUnmarshalFailed
    | some m0 =>
      if m0.payload ≠ [] ∧ detached ≠ none then .error .ambiguousPayload
      else
        let m : Message :=
          match detached with
          | some d => { m0 with payload := d }
          | none => m0
        let payloadRepr : List Nat := if m.b64 then b64Encode m.payload else m.payload
        tryVerifySignatures verifier mh key payloadRepr m.payload m.signatures

/-- Whether a byte is ASCII whitespace (`bytes.TrimSpace`; the multi-byte
Unicode spaces are immaterial to the properties below). -/
def isSpaceByte (b : Nat) : Bool :=
  b = 32 ∨ (9 ≤ b ∧ b ≤ 13)

/-- Embedding of `bytes.TrimSpace`: drop leading and trailing whitespace bytes. -/
def trimSpace (l : List Nat) : List Nat :=
  ((l.dropWhile isSpaceByte).reverse.dropWhile isSpaceByte).reverse

/-- Embedding of `Verify` (src lines 194-216): trim whitespace, reject an empty
buffer, then dispatch on a leading `'{'` (byte 123) to the JSON path,
otherwise the compact path. -/
def Verify (nv : String → Option VerifierFn) (jsonHdr : List Nat → Option Headers)
    (jsonMsg : List Nat → Option Message) (mh : Option Headers → Option (List Nat))
    (buf : List Nat) (alg : String) (key : JwsKey) (detached : Option (List Nat)) :
    JwsResult :=
  let buf := trimSpace buf
  if buf = [] then .error .emptyInput
  else if buf.head? = some 123 then verifyJSON nv jsonMsg mh alg key detached buf
  else verifyCompact nv jsonHdr alg key detached buf

/-- The loop of `VerifySet` (src lines 228-247): skip missing entries,
entries with no declared algorithm, and entries whose declared usage is
present and is not `"sig"`; otherwise try `Verify` with the entry's own
algorithm and key and return the first success. -/
def verifySetLoop (nv : String → Option VerifierFn) (jsonHdr : List Nat → Option Headers)
    (jsonMsg : List Nat → Option Message) (mh : Option Headers → Option (List Nat))
    (buf : List Nat) : List (Option JwkKeyData) → JwsResult
  | [] => .error .noKeyVerified
  | none :: rest => verifySetLoop nv jsonHdr jsonMsg mh buf rest
  | some k :: rest =>
    if k.algorithm = "" then verifySetLoop nv jsonHdr jsonMsg mh buf rest
    else if k.keyUsage ≠ "" ∧ k.keyUsage ≠ "sig" then
      verifySetLoop nv jsonHdr jsonMsg mh buf rest
    else
      match Verify nv jsonHdr jsonMsg mh buf k.algorithm (.jwk k) none with
      | .ok payload => .ok payload
      | .error _ => verifySetLoop nv jsonHdr jsonMsg mh buf rest

/-- Embedding of `VerifySet` (src lines 226-250): iterate the key collection in order
(the collection abstraction exposes `Get(i) -> (Key, bool)`, modelled as
a list of optional entries). -/
def VerifySet (nv : String → Option VerifierFn) (jsonHdr : List Nat → Option Headers)
    (jsonMsg : List Nat → Option Message) (mh : Option Headers → Option (List Nat))
    (buf : List Nat) (set : List (Option JwkKeyData)) : JwsResult :=
  verifySetLoop nv jsonHdr jsonMsg mh buf set

/-- Follows the spec's words for `verify_with_key_set` ("iterate the key
collection in order; ... return on first success"): try the eligible keys
in order, first success wins, `NoKeyVerified` when exhausted. Compared
against `VerifySet` below. -/
def verifySetSpecOrder (nv : String → Option VerifierFn) (jsonHdr : List Nat → Option Headers)
    (jsonMsg : List Nat → Option Message) (mh : Option Headers → Option (List Nat))
    (buf : List Nat) : List JwkKeyData → JwsResult
  | [] => .error .noKeyVerified
  | k :: rest =>
    match Verify nv jsonHdr jsonMsg mh buf k.algorithm (.jwk k) none with
    | .ok payload => .ok payload
    | .error _ => verifySetSpecOrder nv jsonHdr jsonMsg mh buf rest

/-- Follows the spec's words: a key-set entry is eligible when it has a
declared algorithm and its declared usage is absent or `"sig"`. -/
def eligibleKey (k : JwkKeyData) : Bool :=
  (k.algorithm != "") && (k.keyUsage == "" || k.keyUsage == "sig")

/-- Embedding of `parse` (src lines 604-632): base64url-decode the protected header
segment, parse it as JOSE headers, base64url-decode the payload and
signature segments unconditionally, and assemble a single-signature
message (fields not set by the code keep their zero values). -/
def parse (jsonHdr : List Nat → Option Headers)
    (protSeg paySeg sigSeg : List Nat) : ParseResult :=
  match b64Decode protSeg with
  | none => .error .headerDecodeFailed
  | some decodedHeader =>
    match jsonHdr decodedHeader with
    | none => .error .headerParseFailed
    | some hdr =>
      match b64Decode paySeg with
      | none => .error .payloadDecodeFailed
      | some decodedPayload =>
        match b64Decode sigSeg with
        | none => .error .signatureDecodeFailed
        | some decodedSignature =>
          .ok ⟨decodedPayload, false, [⟨none, some hdr, decodedSignature⟩]⟩

/-- Embedding of `parseCompact` (src lines 596-602): split the compact form and feed
the three segments to `parse`. -/
def parseCompact (jsonHdr : List Nat → Option Headers) (data : List Nat) : ParseResult :=
  match SplitCompact data with
  | none => .error .malformedSegments
  | some (protSeg, paySeg, sigSeg) => parse jsonHdr protSeg paySeg sigSeg

/-- Embedding of `addAlgorithmForKeyType` (src lines 680-682): append an algorithm to
the list registered for a key type (the map is modelled as a function
that is `[]` outside the registered domain). -/
def addAlgorithmForKeyType (m : String → List String) (kty : String) (alg : String) :
    String → List String :=
  fun k => if k = kty then m k ++ [alg] else m k

/-- The `keyTypeToAlgorithms` map as populated by `init`
(src lines 660-678), registrations applied in source order. -/
def keyTypeToAlgorithms : String → List String :=
  let m : String → List String := fun _ => []
  let m := addAlgorithmForKeyType m "OKP" "EdDSA"
  let m := addAlgorithmForKeyType m "oct" "HS256"
  let m := addAlgorithmForKeyType m "oct" "HS384"
  let m := addAlgorithmForKeyType m "oct" "HS512"
  let m := addAlgorithmForKeyType m "RSA" "PS256"
  let m := addAlgorithmForKeyType m "RSA" "PS384"
  let m := addAlgorithmForKeyType m "RSA" "PS512"
  let m := addAlgorithmForKeyType m "RSA" "RS256"
  let m := addAlgorithmForKeyType m "RSA" "RS384"
  let m := addAlgorithmForKeyType m "RSA" "RS512"
  let m := addAlgorithmForKeyType m "EC" "ES256"
  let m := addAlgorithmForKeyType m "EC" "ES384"
  let m := addAlgorithmForKeyType m "EC" "ES512"
  m

/-- Result of `AlgorithmsForKey`: the permitted algorithms, or one of its
two error sites (`invalid key %T`, `invalid key type %q`). -/
inductive AlgsResult where
  | ok (algs : List String)
  | invalidKey
  | invalidKeyType
deriving DecidableEq

/-- Embedding of `AlgorithmsForKey` (src lines 686-708): classify the key's shape
(a structured key reports its own key type), then look the key type up
in the registry. -/
def AlgorithmsForKey (key : JwsKey) : AlgsResult :=
  let kty? : Option String :=
    match key with
    | .jwk k => some k.keyType
    | .rsaPublicKey | .rsaPrivateKey => some "RSA"
    | .ecdsaPublicKey | .ecdsaPrivateKey => some "EC"
    | .ed25519PublicKey | .ed25519PrivateKey | .x25519PublicKey | .x25519PrivateKey =>
      some "OKP"
    | .octets _ => some "oct"
    | .otherKey => none
  match kty? with
  | none => .invalidKey
  | some kty =>
    let algs := keyTypeToAlgorithms kty
    if algs.isEmpty then .invalidKeyType else .ok algs

/-- A verifier capability that accepts every signature — the instance
used to witness that some behaviors hold no matter what the
cryptographic check would say. -/
def nvTrue : String → Option VerifierFn := fun _ => some (fun _ _ _ => true)

/-- A JSON-engine header decoder that yields the given headers for every
input, used to instantiate witnesses. -/
def hdrConst (h : Headers) : List Nat → Option Headers := fun _ => some h

/-! Lemmas about the streaming splitter. -/

theorem countDot_append (a b : List Nat) : countDot (a ++ b) = countDot a + countDot b := by
  induction a with
  | nil => simp [countDot]
  | cons x xs ih =>
    show (if x = 46 then 1 else 0) + countDot (xs ++ b)
        = (if x = 46 then 1 else 0) + countDot xs + countDot b
    rw [ih, Nat.add_assoc]

theorem countDot_le_length (l : List Nat) : countDot l ≤ l.length := by
  induction l with
  | nil => simp [countDot]
  | cons x xs ih =>
    simp only [countDot, List.length_cons]
    split <;> omega

theorem findDot_none {l : List Nat} (h : findDot l = none) : countDot l = 0 := by
  induction l with
  | nil => simp [countDot]
  | cons b rest ih =>
    by_cases hb : b = 46
    · simp [findDot, hb] at h
    · rw [findDot, if_neg hb] at h
      cases hr : findDot rest with
      | none => simp [countDot, hb, ih hr]
      | some pr => rw [hr] at h; simp at h

theorem findDot_some {l pre post : List Nat} (h : findDot l = some (pre, post)) :
    l = pre ++ 46 :: post ∧ countDot pre = 0 := by
  induction l generalizing pre post with
  | nil => simp [findDot] at h
  | cons b rest ih =>
    by_cases hb : b = 46
    · rw [findDot, if_pos hb] at h
      obtain ⟨h1, h2⟩ := Prod.mk.injEq .. ▸ Option.some.injEq .. ▸ h
      subst hb
      constructor
      · rw [← h1, ← h2]; rfl
      · rw [← h1]; rfl
    · rw [findDot, if_neg hb] at h
      cases hr : findDot rest with
      | none => rw [hr] at h; simp at h
      | some pr =>
        obtain ⟨pre', post'⟩ := pr
        rw [hr] at h
        simp only [Option.some.injEq, Prod.mk.injEq] at h
        obtain ⟨h1, h2⟩ := h
        obtain ⟨hl, hc⟩ := ih hr
        subst h1 h2
        constructor
        · rw [hl]; rfl
        · simp [countDot, hb, hc]

theorem foldl_stepByte_nodot :
    ∀ (v : List Nat) (acc : SegAcc) (t : List Nat), countDot v = 0 →
      List.foldl stepByte ⟨acc, t⟩ v = ⟨acc, t ++ v⟩ := by
  intro v
  induction v with
  | nil => intro acc t _; simp
  | cons b rest ih =>
    intro acc t hv
    have hb : b ≠ 46 := by
      intro h; rw [countDot, if_pos h] at hv; omega
    have hr : countDot rest = 0 := by
      rw [countDot, if_neg hb] at hv; omega
    rw [List.foldl_cons, stepByte, if_neg hb, ih acc (t ++ [b]) hr, List.append_assoc]
    rfl

theorem innerLoop_false :
    ∀ (fuel : Nat) (acc : SegAcc) (sofar : List Nat), countDot sofar < fuel →
      innerLoop fuel ⟨acc, sofar⟩ false = List.foldl stepByte ⟨acc, []⟩ sofar := by
  intro fuel
  induction fuel with
  | zero => intro acc sofar h; omega
  | succ f ih =>
    intro acc sofar h
    cases hf : findDot sofar with
    | none =>
      have h0 : countDot sofar = 0 := findDot_none hf
      simp only [innerLoop, hf]
      rw [foldl_stepByte_nodot sofar acc [] h0]
      simp
    | some pr =>
      obtain ⟨pre, post⟩ := pr
      obtain ⟨hl, hc⟩ := findDot_some hf
      have hpost : countDot post < f := by
        rw [hl, countDot_append, hc, countDot, if_pos rfl] at h
        omega
      simp only [innerLoop, hf]
      rw [ih (stepSeg acc pre) post hpost, hl,
        List.foldl_append, foldl_stepByte_nodot pre acc [] hc, List.nil_append,
        List.foldl_cons, stepByte, if_pos rfl]

theorem innerLoop_true :
    ∀ (fuel : Nat) (acc : SegAcc) (sofar : List Nat), countDot sofar < fuel →
      innerLoop fuel ⟨acc, sofar⟩ true
        = flushState (List.foldl stepByte ⟨acc, []⟩ sofar) := by
  intro fuel
  induction fuel with
  | zero => intro acc sofar h; omega
  | succ f ih =>
    intro acc sofar h
    cases hf : findDot sofar with
    | none =>
      have h0 : countDot sofar = 0 := findDot_none hf
      simp only [innerLoop, hf]
      rw [foldl_stepByte_nodot sofar acc [] h0]
      simp [flushState]
    | some pr =>
      obtain ⟨pre, post⟩ := pr
      obtain ⟨hl, hc⟩ := findDot_some hf
      have hpost : countDot post < f := by
        rw [hl, countDot_append, hc, countDot, if_pos rfl] at h
        omega
      simp only [innerLoop, hf]
      rw [ih (stepSeg acc pre) post hpost, hl,
        List.foldl_append, foldl_stepByte_nodot pre acc [] hc, List.nil_append,
        List.foldl_cons, stepByte, if_pos rfl]

theorem stepByte_sofar_nodot :
    ∀ (v : List Nat) (acc : SegAcc) (t : List Nat), countDot t = 0 →
      countDot (List.foldl stepByte ⟨acc, t⟩ v).sofar = 0 := by
  intro v
  induction v with
  | nil => intro acc t ht; simpa
  | cons b rest ih =>
    intro acc t ht
    by_cases hb : b = 46
    · rw [List.foldl_cons, stepByte, if_pos hb]
      exact ih _ [] rfl
    · rw [List.foldl_cons, stepByte, if_neg hb]
      exact ih _ (t ++ [b]) (by rw [countDot_append, ht, countDot, if_neg hb]; rfl)

theorem outerLoop_eq :
    ∀ (chunks : List (List Nat)) (acc : SegAcc) (sofar : List Nat), countDot sofar = 0 →
      outerLoop ⟨acc, sofar⟩ chunks
        = flushState (List.foldl stepByte ⟨acc, sofar⟩ chunks.flatten) := by
  intro chunks
  induction chunks with
  | nil =>
    intro acc sofar h0
    have hlt : countDot sofar < sofar.length + 1 := by
      have := countDot_le_length sofar; omega
    rw [outerLoop, innerLoop_true _ acc sofar hlt, foldl_stepByte_nodot sofar acc [] h0]
    simp
  | cons c cs ih =>
    intro acc sofar h0
    have hlt : countDot (sofar ++ c) < (sofar ++ c).length + 1 := by
      have := countDot_le_length (sofar ++ c); omega
    rw [outerLoop]
    show outerLoop (innerLoop ((sofar ++ c).length + 1) ⟨acc, sofar ++ c⟩ false) cs = _
    rw [innerLoop_false _ acc (sofar ++ c) hlt, List.foldl_append,
      foldl_stepByte_nodot sofar acc [] h0, List.nil_append]
    have hs : countDot (List.foldl stepByte ⟨acc, sofar⟩ c).sofar = 0 :=
      stepByte_sofar_nodot c acc sofar h0
    have := ih (List.foldl stepByte ⟨acc, sofar⟩ c).acc
      (List.foldl stepByte ⟨acc, sofar⟩ c).sofar hs
    rw [show (⟨(List.foldl stepByte ⟨acc, sofar⟩ c).acc,
          (List.foldl stepByte ⟨acc, sofar⟩ c).sofar⟩ : SplitState)
        = List.foldl stepByte ⟨acc, sofar⟩ c from rfl] at this
    rw [this, List.flatten_cons, List.foldl_append]

theorem splitDots_ne_nil (l : List Nat) : ∃ q qs, splitDots l = q :: qs := by
  induction l with
  | nil => exact ⟨[], [], rfl⟩
  | cons b rest ih =>
    by_cases hb : b = 46
    · exact ⟨[], splitDots rest, by rw [splitDots, if_pos hb]⟩
    · obtain ⟨q, qs, hq⟩ := ih
      exact ⟨b :: q, qs, by rw [splitDots, if_neg hb, hq]⟩

theorem splitDots_length (l : List Nat) : (splitDots l).length = countDot l + 1 := by
  induction l with
  | nil => simp [splitDots, countDot]
  | cons b rest ih =>
    by_cases hb : b = 46
    · rw [splitDots, if_pos hb, countDot, if_pos hb, List.length_cons, ih]
      omega
    · obtain ⟨q, qs, hq⟩ := splitDots_ne_nil rest
      rw [splitDots, if_neg hb, hq, countDot, if_neg hb]
      rw [hq] at ih
      simpa using ih

theorem foldl_stepByte_splitDots :
    ∀ (buf : List Nat) (acc : SegAcc) (t : List Nat),
      List.foldl stepByte ⟨acc, t⟩ buf =
        ⟨List.foldl stepSeg acc (withHead t (splitDots buf)).dropLast,
         (withHead t (splitDots buf)).getLastD []⟩ := by
  intro buf
  induction buf with
  | nil => intro acc t; simp [splitDots, withHead]
  | cons b rest ih =>
    intro acc t
    by_cases hb : b = 46
    · rw [List.foldl_cons, stepByte, if_pos hb, ih (stepSeg acc t) [],
        splitDots, if_pos hb]
      obtain ⟨q, qs, hq⟩ := splitDots_ne_nil rest
      rw [hq]
      simp [withHead]
    · rw [List.foldl_cons, stepByte, if_neg hb, ih acc (t ++ [b]),
        splitDots, if_neg hb]
      obtain ⟨q, qs, hq⟩ := splitDots_ne_nil rest
      rw [hq]
      simp [withHead]

theorem assignSeg_periods (a : SegAcc) (seg : List Nat) :
    (assignSeg a seg).periods = a.periods := by
  obtain ⟨p, l, g, per, st⟩ := a
  rcases st with _ | _ | st <;> rfl

theorem foldl_stepSeg_periods :
    ∀ (L : List (List Nat)) (a : SegAcc),
      (List.foldl stepSeg a L).periods = a.periods + L.length := by
  intro L
  induction L with
  | nil => intro a; simp
  | cons x xs ih =>
    intro a
    rw [List.foldl_cons, ih, stepSeg, assignSeg_periods]
    show a.periods + 1 + xs.length = a.periods + (xs.length + 1)
    omega

theorem SplitCompact_eq_none_iff (src : List Nat) :
    SplitCompact src = none ↔ countDot src < 2 := by
  have hlen := splitDots_length src
  obtain ⟨q, qs, hq⟩ := splitDots_ne_nil src
  rw [hq] at hlen
  rw [SplitCompact, hq]
  match qs with
  | [] =>
    simp only [List.length_cons, List.length_nil] at hlen
    simp
    omega
  | [q1] =>
    simp only [List.length_cons, List.length_nil] at hlen
    simp
    omega
  | q1 :: q2 :: qs2 =>
    simp only [List.length_cons] at hlen
    simp
    omega

/-- The streaming splitter, characterised: it succeeds exactly when the
whole stream carries exactly two delimiters, and then agrees with the
eager splitter. -/
theorem SplitCompactReader_char (chunks : List (List Nat)) :
    SplitCompactReader chunks =
      if countDot chunks.flatten = 2 then SplitCompact chunks.flatten else none := by
  have hlen := splitDots_length chunks.flatten
  obtain ⟨q, qs, hq⟩ := splitDots_ne_nil chunks.flatten
  rw [hq] at hlen
  rw [SplitCompactReader]
  rw [show initState = (⟨⟨[], [], [], 0, 0⟩, []⟩ : SplitState) from rfl,
    outerLoop_eq chunks ⟨[], [], [], 0, 0⟩ [] rfl,
    foldl_stepByte_splitDots chunks.flatten ⟨[], [], [], 0, 0⟩ [], hq]
  match qs with
  | [] =>
    simp only [List.length_cons, List.length_nil] at hlen
    have hc : countDot chunks.flatten ≠ 2 := by omega
    rw [if_neg hc]
    simp [withHead, flushState, assignSeg]
  | [q1] =>
    simp only [List.length_cons, List.length_nil] at hlen
    have hc : countDot chunks.flatten ≠ 2 := by omega
    rw [if_neg hc]
    simp [withHead, flushState, stepSeg, assignSeg]
  | [q1, q2] =>
    simp only [List.length_cons, List.length_nil] at hlen
    have hc : countDot chunks.flatten = 2 := by omega
    rw [if_pos hc, SplitCompact, hq]
    simp [withHead, flushState, stepSeg, assignSeg]
  | q1 :: q2 :: q3 :: qs3 =>
    simp only [List.length_cons] at hlen
    have hc : countDot chunks.flatten ≠ 2 := by omega
    rw [if_neg hc]
    simp only [withHead, List.nil_append, flushState]
    rw [if_neg]
    rw [assignSeg_periods, foldl_stepSeg_periods]
    simp only [List.length_dropLast, List.length_cons]
    omega

theorem joinDots_splitDots (l : List Nat) : joinDots (splitDots l) = l := by
  induction l with
  | nil => rfl
  | cons b rest ih =>
    obtain ⟨q, qs, hq⟩ := splitDots_ne_nil rest
    rw [hq] at ih
    by_cases hb : b = 46
    · subst hb
      rw [splitDots, if_pos rfl, hq]
      show 46 :: joinDots (q :: qs) = 46 :: rest
      rw [ih]
    · rw [splitDots, if_neg hb, hq]
      rcases qs with _ | ⟨q2, qs2⟩
      · show b :: q = b :: rest
        rw [show q = rest from ih]
      · show (b :: q) ++ 46 :: joinDots (q2 :: qs2) = b :: rest
        rw [← ih]
        rfl

theorem splitDots_nodot :
    ∀ (l : List Nat) (p : List Nat), p ∈ splitDots l → countDot p = 0 := by
  intro l
  induction l with
  | nil =>
    intro p hp
    simp [splitDots] at hp
    simp [hp, countDot]
  | cons b rest ih =>
    intro p hp
    by_cases hb : b = 46
    · rw [splitDots, if_pos hb] at hp
      rcases List.mem_cons.1 hp with h | h
      · simp [h, countDot]
      · exact ih p h
    · obtain ⟨q, qs, hq⟩ := splitDots_ne_nil rest
      rw [splitDots, if_neg hb, hq] at hp
      rcases List.mem_cons.1 hp with h | h
      · subst h
        rw [countDot, if_neg hb]
        have : q ∈ splitDots rest := by rw [hq]; exact List.mem_cons_self q qs
        simpa using ih q this
      · exact ih p (by rw [hq]; exact List.mem_cons_of_mem q h)

/-- C5 counterexample: for the buffer `"a.b.c.d"` delivered as a single
chunk, the streaming splitter fails (three delimiters) while the eager
`SplitCompact` succeeds with the first three segments, so the claimed
equivalence is false. -/
theorem c5_counterexample :
    SplitCompactReader [[97, 46, 98, 46, 99, 46, 100]] = none ∧
    SplitCompact [97, 46, 98, 46, 99, 46, 100] = some ([97], [98], [99]) := by
  decide

/-- C5 (amended): for every byte buffer and every chunking of it, the
streaming splitter agrees with the eager `SplitCompact` exactly when the
buffer has at most two `'.'` delimiters; with three or more the eager
splitter succeeds while the streaming one fails. -/
theorem c5_stream_equiv_amended (buf : List Nat) (chunks : List (List Nat))
    (hjoin : chunks.flatten = buf) :
    SplitCompactReader chunks = SplitCompact buf ↔ countDot buf ≤ 2 := by
  subst hjoin
  rw [SplitCompactReader_char]
  constructor
  · intro h
    by_contra hgt
    rw [if_neg (by omega)] at h
    have := (SplitCompact_eq_none_iff chunks.flatten).1 h.symm
    omega
  · intro hle
    by_cases h2 : countDot chunks.flatten = 2
    · rw [if_pos h2]
    · rw [if_neg h2]
      exact ((SplitCompact_eq_none_iff chunks.flatten).2 (by omega)).symm

/-- C5 witness: a two-chunk reader over `"a.."` + `"b"`-style input whose
chunk boundary sits between the two dots agrees with the eager splitter. -/
theorem c5_witness :
    SplitCompactReader [[97, 46], [46, 98]] = SplitCompact [97, 46, 46, 98] :=
  (c5_stream_equiv_amended [97, 46, 46, 98] [[97, 46], [46, 98]] rfl).mpr (by decide)

/-- C6 counterexample: `"a.b.c.d"` has three `'.'` separators, yet
`SplitCompact` succeeds with the first three segments instead of failing
as the claim states. -/
theorem c6_counterexample :
    countDot [97, 46, 98, 46, 99, 46, 100] = 3 ∧
    SplitCompact [97, 46, 98, 46, 99, 46, 100] = some ([97], [98], [99]) := by
  decide

/-- C6 (amended): `SplitCompact` fails exactly when the input has fewer
than two `'.'` separators; whenever it succeeds, the three returned
segments are dot-free and form an initial dot-separated decomposition of
the input (anything after the third segment — possible when there are
more than two dots — is dropped). -/
theorem c6_split_amended (src : List Nat) :
    (SplitCompact src = none ↔ countDot src < 2) ∧
    (∀ p l s, SplitCompact src = some (p, l, s) →
      countDot p = 0 ∧ countDot l = 0 ∧ countDot s = 0 ∧
      ∃ r, src = p ++ 46 :: (l ++ 46 :: (s ++ r)) ∧ (r = [] ∨ ∃ r2, r = 46 :: r2)) := by
  refine ⟨SplitCompact_eq_none_iff src, ?_⟩
  intro p l s h
  have hj := joinDots_splitDots src
  obtain ⟨q, qs, hq⟩ := splitDots_ne_nil src
  rw [SplitCompact, hq] at h
  rcases qs with _ | ⟨q1, _ | ⟨q2, qs2⟩⟩
  · simp at h
  · simp at h
  · simp only [Option.some.injEq, Prod.mk.injEq] at h
    obtain ⟨h1, h2, h3⟩ := h
    subst h1 h2 h3
    rw [hq] at hj
    refine ⟨?_, ?_, ?_, ?_⟩
    · exact splitDots_nodot src q (by rw [hq]; exact List.mem_cons_self _ _)
    · exact splitDots_nodot src q1
        (by rw [hq]; exact List.mem_cons_of_mem _ (List.mem_cons_self _ _))
    · exact splitDots_nodot src q2
        (by
          rw [hq]
          exact List.mem_cons_of_mem _ (List.mem_cons_of_mem _ (List.mem_cons_self _ _)))
    · rcases qs2 with _ | ⟨r1, rest⟩
      · refine ⟨[], ?_, Or.inl rfl⟩
        rw [← hj]
        simp [joinDots]
      · refine ⟨46 :: joinDots (r1 :: rest), ?_, Or.inr ⟨joinDots (r1 :: rest), rfl⟩⟩
        rw [← hj]
        simp [joinDots]

/-- C6 witness: the decomposition at the well-formed input `"a.b.c"`. -/
theorem c6_witness :
    countDot [97] = 0 ∧ countDot [98] = 0 ∧ countDot [99] = 0 ∧
    ∃ r, [97, 46, 98, 46, 99] = [97] ++ 46 :: ([98] ++ 46 :: ([99] ++ r)) ∧
      (r = [] ∨ ∃ r2, r = 46 :: r2) :=
  (c6_split_amended [97, 46, 98, 46, 99]).2 [97] [98] [99] rfl

/-- C7 counterexample: for an RSA key the registry's order is the
PS-family first — `[PS256, PS384, PS512, RS256, RS384, RS512]` — not the
RS-family-first order the claim lists. -/
theorem c7_counterexample :
    AlgorithmsForKey .rsaPublicKey
        = .ok ["PS256", "PS384", "PS512", "RS256", "RS384", "RS512"] ∧
    AlgorithmsForKey .rsaPublicKey
        ≠ .ok ["RS256", "RS384", "RS512", "PS256", "PS384", "PS512"] := by
  decide

/-- C7 (amended): for every key of a recognized shape,
`AlgorithmsForKey` returns exactly the permitted ordered list for the
key's KeyType: Octet → [HS256, HS384, HS512],
RSA → [PS256, PS384, PS512, RS256, RS384, RS512] (PS-family first),
EC → [ES256, ES384, ES512], OKP → [EdDSA]. -/
theorem c7_algorithms_amended :
    (∀ b, AlgorithmsForKey (.octets b) = .ok ["HS256", "HS384", "HS512"]) ∧
    AlgorithmsForKey .rsaPublicKey
        = .ok ["PS256", "PS384", "PS512", "RS256", "RS384", "RS512"] ∧
    AlgorithmsForKey .rsaPrivateKey
        = .ok ["PS256", "PS384", "PS512", "RS256", "RS384", "RS512"] ∧
    AlgorithmsForKey .ecdsaPublicKey = .ok ["ES256", "ES384", "ES512"] ∧
    AlgorithmsForKey .ecdsaPrivateKey = .ok ["ES256", "ES384", "ES512"] ∧
    AlgorithmsForKey .ed25519PublicKey = .ok ["EdDSA"] ∧
    AlgorithmsForKey .ed25519PrivateKey = .ok ["EdDSA"] ∧
    AlgorithmsForKey .x25519PublicKey = .ok ["EdDSA"] ∧
    AlgorithmsForKey .x25519PrivateKey = .ok ["EdDSA"] ∧
    (∀ ki a u, AlgorithmsForKey (.jwk ⟨"oct", ki, a, u⟩)
        = .ok ["HS256", "HS384", "HS512"]) ∧
    (∀ ki a u, AlgorithmsForKey (.jwk ⟨"RSA", ki, a, u⟩)
        = .ok ["PS256", "PS384", "PS512", "RS256", "RS384", "RS512"]) ∧
    (∀ ki a u, AlgorithmsForKey (.jwk ⟨"EC", ki, a, u⟩)
        = .ok ["ES256", "ES384", "ES512"]) ∧
    (∀ ki a u, AlgorithmsForKey (.jwk ⟨"OKP", ki, a, u⟩) = .ok ["EdDSA"]) := by
  exact ⟨fun b => rfl, rfl, rfl, rfl, rfl, rfl, rfl, rfl, rfl,
    fun ki a u => rfl, fun ki a u => rfl, fun ki a u => rfl, fun ki a u => rfl⟩

/-- C8: `VerifySet` equals the reference procedure that keeps, in order,
exactly the present entries with a declared algorithm whose declared
usage is absent or `"sig"`, tries each with its own algorithm via
`Verify`, returns on the first success, and fails with `NoKeyVerified`
when exhausted. -/
theorem c8_verify_set (nv : String → Option VerifierFn) (jsonHdr : List Nat → Option Headers)
    (jsonMsg : List Nat → Option Message) (mh : Option Headers → Option (List Nat))
    (buf : List Nat) (set : List (Option JwkKeyData)) :
    VerifySet nv jsonHdr jsonMsg mh buf set
      = verifySetSpecOrder nv jsonHdr jsonMsg mh buf
          ((set.filterMap id).filter eligibleKey) := by
  induction set with
  | nil => rfl
  | cons entry rest ih =>
    cases entry with
    | none =>
      rw [VerifySet, verifySetLoop] at *
      simpa [List.filterMap_cons] using ih
    | some k =>
      rw [VerifySet, verifySetLoop] at *
      by_cases ha : k.algorithm = ""
      · rw [if_pos ha]
        have he : eligibleKey k = false := by simp [eligibleKey, ha]
        simpa [List.filterMap_cons, List.filter_cons, he] using ih
      · rw [if_neg ha]
        by_cases hu : k.keyUsage ≠ "" ∧ k.keyUsage ≠ "sig"
        · rw [if_pos hu]
          have he : eligibleKey k = false := by
            simp [eligibleKey, hu.1, hu.2]
          simpa [List.filterMap_cons, List.filter_cons, he] using ih
        · rw [if_neg hu]
          have he : eligibleKey k = true := by
            simp only [not_and_or, not_not] at hu
            rcases hu with h | h <;> simp [eligibleKey, ha, h]
          rw [List.filterMap_cons]
          simp only [id]
          rw [show List.filter eligibleKey (k :: List.filterMap id rest)
              = k :: List.filter eligibleKey (List.filterMap id rest) by
            simp [List.filter_cons, he]]
          rw [verifySetSpecOrder]
          cases hv : Verify nv jsonHdr jsonMsg mh buf k.algorithm (.jwk k) none with
          | ok payload => rfl
          | error e => exact ih

/-! Lemmas about compact-form verification, then the claims. -/

theorem payloadOf_none (l : List Nat) : payloadOf l none = l := by
  cases l <;> rfl

theorem payloadOf_cons (x : Nat) (xs : List Nat) (d : Option (List Nat)) :
    payloadOf (x :: xs) d = x :: xs := by
  cases d <;> rfl

theorem kidMismatch_of_ne {hdr : Headers} {key : JwsKey} {kk : String}
    (hkid : hdr.kid ≠ "") (hkk : keyJwkKid key = some kk) (hne : kk ≠ hdr.kid) :
    kidMismatch hdr key = true := by
  rw [kidMismatch, if_neg hkid, hkk]
  simp [hne]

theorem kidMismatch_of_eq {hdr : Headers} {key : JwsKey} {kk : String}
    (hkk : keyJwkKid key = some kk) (heq : kk = hdr.kid) :
    kidMismatch hdr key = false := by
  rw [kidMismatch]
  by_cases h0 : hdr.kid = ""
  · rw [if_pos h0]
  · rw [if_neg h0, hkk]
    simp [heq]

theorem getB64Value_eq_false_iff (h : Headers) :
    getB64Value h = false ↔
      h.b64 = some (.boolV false) ∨ (∃ t, h.b64 = some (.strV t)) ∨
        ∃ n, h.b64 = some (.numV n) := by
  obtain ⟨hk, hb⟩ := h
  rcases hb with _ | hv2
  · simp [getB64Value]
  · rcases hv2 with b | t | n
    · cases b <;> simp [getB64Value]
    · simp [getB64Value]
    · simp [getB64Value]

/-- Evaluation of `verifyCompact` once splitting, verifier construction,
signature decoding and protected-header decoding/parsing all succeed. -/
theorem verifyCompact_unfold
    {nv : String → Option VerifierFn} {jsonHdr : List Nat → Option Headers}
    {alg : String} {key : JwsKey} {detached : Option (List Nat)} {signed : List Nat}
    {p l s : List Nat} {v : VerifierFn} {sd pd : List Nat} {hdr : Headers}
    (hsplit : SplitCompact signed = some (p, l, s))
    (hnv : nv alg = some v)
    (hsig : b64Decode s = some sd)
    (hprot : b64Decode p = some pd)
    (hhdr : jsonHdr pd = some hdr) :
    verifyCompact nv jsonHdr alg key detached signed
      = (if kidMismatch hdr key then .error .keyIDMismatch
         else if v (p ++ 46 :: payloadOf l detached) sd key then
           if getB64Value hdr then
             match b64Decode (payloadOf l detached) with
             | none => .error .payloadDecodeFailed
             | some w => .ok w
           else .ok (payloadOf l detached)
         else .error .verificationFailed) := by
  simp only [verifyCompact, hsplit, hnv, hsig, hprot, hhdr]

/-- C1: in compact verification a `kid` carried by the protected header
that differs from the key ID exposed by the supplied structured key is
fatal (`KeyIDMismatch`) for every verifier — in particular for one that
would accept the signature bytes — since the check precedes the
cryptographic verification. -/
theorem c1_kid_mismatch_fatal
    {nv : String → Option VerifierFn} {jsonHdr : List Nat → Option Headers}
    {alg : String} {key : JwsKey} {detached : Option (List Nat)} {signed : List Nat}
    {p l s : List Nat} {v : VerifierFn} {sd pd : List Nat} {hdr : Headers} {kk : String}
    (hsplit : SplitCompact signed = some (p, l, s))
    (hnv : nv alg = some v)
    (hsig : b64Decode s = some sd)
    (hprot : b64Decode p = some pd)
    (hhdr : jsonHdr pd = some hdr)
    (hkid : hdr.kid ≠ "")
    (hkk : keyJwkKid key = some kk)
    (hne : kk ≠ hdr.kid) :
    verifyCompact nv jsonHdr alg key detached signed = .error .keyIDMismatch := by
  rw [verifyCompact_unfold hsplit hnv hsig hprot hhdr]
  simp [kidMismatch_of_ne hkid hkk hne]

/-- C1 witness: a message whose header `kid` is `"key1"` against a
structured key with key ID `"key2"` and an always-accepting verifier. -/
theorem c1_witness :
    verifyCompact nvTrue (hdrConst ⟨"key1", none⟩) "HS256" (.jwk ⟨"oct", "key2", "", ""⟩)
      none [81, 81, 46, 81, 81, 46, 81, 81] = .error .keyIDMismatch :=
  c1_kid_mismatch_fatal rfl rfl rfl rfl rfl (by decide) rfl (by decide)

/-- C10: once the protected header carries a non-empty `kid` and the
supplied key is a structured key object, compact verification fails with
`KeyIDMismatch` exactly when the key's key ID — including an empty
(absent) one — differs from the header's `kid`. -/
theorem c10_kid_exact
    {nv : String → Option VerifierFn} {jsonHdr : List Nat → Option Headers}
    {alg : String} {key : JwsKey} {detached : Option (List Nat)} {signed : List Nat}
    {p l s : List Nat} {v : VerifierFn} {sd pd : List Nat} {hdr : Headers} {kk : String}
    (hsplit : SplitCompact signed = some (p, l, s))
    (hnv : nv alg = some v)
    (hsig : b64Decode s = some sd)
    (hprot : b64Decode p = some pd)
    (hhdr : jsonHdr pd = some hdr)
    (hkid : hdr.kid ≠ "")
    (hkk : keyJwkKid key = some kk) :
    verifyCompact nv jsonHdr alg key detached signed = .error .keyIDMismatch
      ↔ kk ≠ hdr.kid := by
  rw [verifyCompact_unfold hsplit hnv hsig hprot hhdr]
  constructor
  · intro h heq
    rw [kidMismatch_of_eq hkk heq] at h
    simp only [Bool.false_eq_true, if_false] at h
    by_cases hb : v (p ++ 46 :: payloadOf l detached) sd key = true
    · simp only [hb, if_true] at h
      by_cases hg : getB64Value hdr = true
      · simp only [hg, if_true] at h
        cases hd : b64Decode (payloadOf l detached) with
        | none => rw [hd] at h; simp at h
        | some w => rw [hd] at h; simp at h
      · simp only [Bool.not_eq_true] at hg
        simp only [hg, Bool.false_eq_true, if_false] at h
        simp at h
    · simp only [Bool.not_eq_true] at hb
      simp only [hb, Bool.false_eq_true, if_false] at h
      simp at h
  · intro hne
    simp [kidMismatch_of_ne hkid hkk hne]

/-- C10 witness: a header `kid` of `"key1"` against a structured key
whose key ID is empty (absent) still fails with `KeyIDMismatch`. -/
theorem c10_witness :
    verifyCompact nvTrue (hdrConst ⟨"key1", none⟩) "HS256" (.jwk ⟨"oct", "", "", ""⟩)
      none [81, 81, 46, 81, 81, 46, 81, 81] = .error .keyIDMismatch :=
  (@c10_kid_exact nvTrue (hdrConst ⟨"key1", none⟩) "HS256" (.jwk ⟨"oct", "", "", ""⟩)
      none [81, 81, 46, 81, 81, 46, 81, 81] [81, 81] [81, 81] [81, 81]
      (fun _ _ _ => true) [65] [65] ⟨"key1", none⟩ ""
      rfl rfl rfl rfl rfl (by decide) rfl).mpr (by decide)

/-- C2 counterexample: compact message `"QQ.."`-style with empty payload
segment, detached payload `P = "AAAA"` (bytes 65,65,65,65), default
`b64`: verification succeeds but returns the base64url-decoding of `P`
(bytes 0,0,0), not `P` itself as the claim states. -/
theorem c2_counterexample :
    verifyCompact nvTrue (hdrConst ⟨"", none⟩) "HS256" (.octets [])
      (some [65, 65, 65, 65]) [81, 81, 46, 46, 81, 81] = .ok [0, 0, 0] ∧
    ([0, 0, 0] : List Nat) ≠ [65, 65, 65, 65] := by
  decide

/-- C2 (amended): for a compact message with an empty payload segment
and a supplied detached payload `P`, the signing input is built from `P`
(`protected-segment . P`), and on successful signature verification the
result is `P` itself when the header's `b64` is false, otherwise the
base64url-decoding of `P` (`PayloadDecodeFailed` when `P` does not
decode). -/
theorem c2_detached_amended
    {nv : String → Option VerifierFn} {jsonHdr : List Nat → Option Headers}
    {alg : String} {key : JwsKey} {signed : List Nat}
    {p s : List Nat} {v : VerifierFn} {sd pd : List Nat} {hdr : Headers}
    (detachedP : List Nat)
    (hsplit : SplitCompact signed = some (p, [], s))
    (hnv : nv alg = some v)
    (hsig : b64Decode s = some sd)
    (hprot : b64Decode p = some pd)
    (hhdr : jsonHdr pd = some hdr)
    (hkid : kidMismatch hdr key = false) :
    verifyCompact nv jsonHdr alg key (some detachedP) signed
      = (if v (p ++ 46 :: detachedP) sd key then
           if getB64Value hdr then
             match b64Decode detachedP with
             | none => .error .payloadDecodeFailed
             | some w => .ok w
           else .ok detachedP
         else .error .verificationFailed) := by
  rw [verifyCompact_unfold hsplit hnv hsig hprot hhdr]
  simp [payloadOf, hkid]

/-- C2 witness: with `b64` explicitly false the detached payload is
returned verbatim after a successful verification. -/
theorem c2_witness :
    verifyCompact nvTrue (hdrConst ⟨"", some (.boolV false)⟩) "HS256" (.octets [])
      (some [65, 65, 65, 65]) [81, 81, 46, 46, 81, 81] = .ok [65, 65, 65, 65] :=
  (@c2_detached_amended nvTrue (hdrConst ⟨"", some (.boolV false)⟩) "HS256"
      (.octets []) [81, 81, 46, 46, 81, 81] [81, 81] [81, 81] (fun _ _ _ => true)
      [65] [65] ⟨"", some (.boolV false)⟩ [65, 65, 65, 65]
      rfl rfl rfl rfl rfl rfl).trans (by decide)

/-- C3 counterexample: in compact form, a message with a non-empty
payload segment verified with a detached payload supplied does not fail
with `AmbiguousPayload` — the detached payload is silently ignored and
verification succeeds. -/
theorem c3_counterexample :
    verifyCompact nvTrue (hdrConst ⟨"", none⟩) "HS256" (.octets [])
      (some [65, 65]) [81, 81, 46, 81, 81, 46, 81, 81] = .ok [65] ∧
    verifyCompact nvTrue (hdrConst ⟨"", none⟩) "HS256" (.octets [])
      (some [65, 65]) [81, 81, 46, 81, 81, 46, 81, 81]
      ≠ .error .ambiguousPayload := by
  decide

/-- C3 (amended): a non-empty embedded payload together with a detached
payload fails with `AmbiguousPayload` in JSON-form verification only; in
compact form the detached payload is ignored whenever the payload
segment is non-empty (verification proceeds exactly as if no detached
payload had been supplied). -/
theorem c3_ambiguous_amended :
    (∀ (nv : String → Option VerifierFn) (jsonMsg : List Nat → Option Message)
        (mh : Option Headers → Option (List Nat)) (alg : String) (key : JwsKey)
        (d signed : List Nat) (v : VerifierFn) (m : Message),
        nv alg = some v → jsonMsg signed = some m → m.payload ≠ [] →
        verifyJSON nv jsonMsg mh alg key (some d) signed = .error .ambiguousPayload) ∧
    (∀ (nv : String → Option VerifierFn) (jsonHdr : List Nat → Option Headers)
        (alg : String) (key : JwsKey) (d signed : List Nat) (p l s : List Nat),
        SplitCompact signed = some (p, l, s) → l ≠ [] →
        verifyCompact nv jsonHdr alg key (some d) signed
          = verifyCompact nv jsonHdr alg key none signed) := by
  constructor
  · intro nv jsonMsg mh alg key d signed v m hnv hjm hp
    simp only [verifyJSON, hnv, hjm]
    rw [if_pos ⟨hp, by simp⟩]
  · intro nv jsonHdr alg key d signed p l s hsplit hl
    cases l with
    | nil => exact absurd rfl hl
    | cons x xs =>
      simp only [verifyCompact, hsplit, payloadOf_cons]

/-- C3 witness: the JSON path rejects the combination while the compact
path ignores the detached payload. -/
theorem c3_witness :
    verifyJSON nvTrue (fun _ => some ⟨[1], true, []⟩) (fun _ => some []) "HS256"
      .otherKey (some [65]) [123] = .error .ambiguousPayload ∧
    verifyCompact nvTrue (hdrConst ⟨"", none⟩) "HS256" .otherKey (some [65])
      [81, 81, 46, 81, 81, 46, 81, 81]
      = verifyCompact nvTrue (hdrConst ⟨"", none⟩) "HS256" .otherKey none
        [81, 81, 46, 81, 81, 46, 81, 81] :=
  ⟨c3_ambiguous_amended.1 nvTrue (fun _ => some ⟨[1], true, []⟩) (fun _ => some [])
      "HS256" .otherKey [65] [123] (fun _ _ _ => true) ⟨[1], true, []⟩ rfl rfl
      (by decide),
   c3_ambiguous_amended.2 nvTrue (hdrConst ⟨"", none⟩) "HS256" .otherKey [65]
      [81, 81, 46, 81, 81, 46, 81, 81] [81, 81] [81, 81] [81, 81] rfl (by decide)⟩

/-- C4 counterexample: a `b64` header value that is present but not a
boolean (here the string `"x"`) is not "explicitly false", yet the
payload is returned as the raw segment bytes instead of being
base64url-decoded, refuting the claimed "if and only if". -/
theorem c4_counterexample :
    verifyCompact nvTrue (hdrConst ⟨"", some (.strV "x")⟩) "HS256" (.octets [])
      none [81, 81, 46, 81, 81, 46, 81, 81] = .ok [81, 81] ∧
    b64Decode [81, 81] = some [65] ∧
    verifyCompact nvTrue (hdrConst ⟨"", some (.strV "x")⟩) "HS256" (.octets [])
      none [81, 81, 46, 81, 81, 46, 81, 81] ≠ .ok [65] := by
  decide

/-- C4 (amended): after a successful compact signature check the payload
segment is returned raw exactly when `getB64Value` is false — that is,
when `b64` is explicitly false or present with a non-boolean value;
otherwise (absent or explicitly true) it is base64url-decoded, a failure
being reported distinctly as `PayloadDecodeFailed`. -/
theorem c4_b64_policy_amended
    {nv : String → Option VerifierFn} {jsonHdr : List Nat → Option Headers}
    {alg : String} {key : JwsKey} {signed : List Nat}
    {p l s : List Nat} {v : VerifierFn} {sd pd : List Nat} {hdr : Headers}
    (hsplit : SplitCompact signed = some (p, l, s))
    (hnv : nv alg = some v)
    (hsig : b64Decode s = some sd)
    (hprot : b64Decode p = some pd)
    (hhdr : jsonHdr pd = some hdr)
    (hkid : kidMismatch hdr key = false)
    (hv : v (p ++ 46 :: l) sd key = true) :
    (verifyCompact nv jsonHdr alg key none signed
      = if getB64Value hdr then
          match b64Decode l with
          | none => .error .payloadDecodeFailed
          | some w => .ok w
        else .ok l) ∧
    (getB64Value hdr = false ↔
      hdr.b64 = some (.boolV false) ∨ (∃ t, hdr.b64 = some (.strV t)) ∨
        ∃ n, hdr.b64 = some (.numV n)) := by
  refine ⟨?_, getB64Value_eq_false_iff hdr⟩
  rw [verifyCompact_unfold hsplit hnv hsig hprot hhdr]
  rw [payloadOf_none] at *
  simp [hkid, hv]

/-- C4 witness: with `b64` explicitly true the payload segment is
base64url-decoded after the successful check. -/
theorem c4_witness :
    verifyCompact nvTrue (hdrConst ⟨"", some (.boolV true)⟩) "HS256" (.octets [])
      none [81, 81, 46, 81, 81, 46, 81, 81] = .ok [65] :=
  ((@c4_b64_policy_amended nvTrue (hdrConst ⟨"", some (.boolV true)⟩) "HS256"
      (.octets []) [81, 81, 46, 81, 81, 46, 81, 81] [81, 81] [81, 81] [81, 81]
      (fun _ _ _ => true) [65] [65] ⟨"", some (.boolV true)⟩
      rfl rfl rfl rfl rfl rfl rfl).1).trans (by decide)

/-- C9: compact parsing base64url-decodes all three segments
unconditionally — a `Message` is returned only when protected header,
payload and signature segments all decode — and a non-base64url payload
segment is a `PayloadDecodeFailed` error even when the parsed protected
header sets `b64` to false. -/
theorem c9_parse_decodes (jsonHdr : List Nat → Option Headers) (data p l s : List Nat)
    (hsplit : SplitCompact data = some (p, l, s)) :
    (∀ m, parseCompact jsonHdr data = .ok m →
      (b64Decode p).isSome ∧ (b64Decode l).isSome ∧ (b64Decode s).isSome) ∧
    (∀ hb hdr, b64Decode p = some hb → jsonHdr hb = some hdr →
      hdr.b64 = some (.boolV false) → b64Decode l = none →
      parseCompact jsonHdr data = .error .payloadDecodeFailed) := by
  constructor
  · intro m hm
    rw [parseCompact, hsplit] at hm
    cases hp : b64Decode p with
    | none =>
      simp only [parse, hp] at hm
      exact ParseResult.noConfusion hm
    | some hb =>
      cases hh : jsonHdr hb with
      | none =>
        simp only [parse, hp, hh] at hm
        exact ParseResult.noConfusion hm
      | some hdr =>
        cases hl : b64Decode l with
        | none =>
          simp only [parse, hp, hh, hl] at hm
          exact ParseResult.noConfusion hm
        | some dl =>
          cases hs : b64Decode s with
          | none =>
            simp only [parse, hp, hh, hl, hs] at hm
            exact ParseResult.noConfusion hm
          | some ds => exact ⟨by simp [hp], by simp [hl], by simp [hs]⟩
  · intro hb hdr hp hh _hb64 hl
    rw [parseCompact, hsplit]
    simp only [parse, hp, hh, hl]

/-- C9 witness: the three decodes of a well-formed input, and the
distinct payload-decode failure at `"QQ.!.QQ"` whose header carries
`b64 = false`. -/
theorem c9_witness :
    ((b64Decode [81, 81]).isSome ∧ (b64Decode [81, 81]).isSome ∧
      (b64Decode [81, 81]).isSome) ∧
    parseCompact (hdrConst ⟨"", some (.boolV false)⟩) [81, 81, 46, 33, 46, 81, 81]
      = .error .payloadDecodeFailed :=
  ⟨(c9_parse_decodes (hdrConst ⟨"", some (.boolV false)⟩)
      [81, 81, 46, 81, 81, 46, 81, 81] [81, 81] [81, 81] [81, 81] rfl).1
      ⟨[65], false, [⟨none, some ⟨"", some (.boolV false)⟩, [65]⟩]⟩ (by decide),
   (c9_parse_decodes (hdrConst ⟨"", some (.boolV false)⟩)
      [81, 81, 46, 33, 46, 81, 81] [81, 81] [33] [81, 81] rfl).2
      [65] ⟨"", some (.boolV false)⟩ rfl rfl rfl rfl⟩

end Jws
